import Mathlib

/-!
Shallow embedding of the `db_types` scalar-type core of the mocksmith
repository (src/db_types/types/{base,numeric,string,binary}.py), plus a
spec-modelled bounded-integer mock generator for the part of the
repository (mocksmith/types/numeric.py) whose implementation file is not
present in the source tree.

Python values are modelled by the inductive `PyVal`.  Python floats are
idealized as exact rationals plus the three non-finite values; none of
the verified claims depends on binary rounding.  Python strings are
modelled as `List Char`.  `decimal.Decimal` objects are modelled by their
`as_tuple()` representation `DecTup` (sign, coefficient digits, exponent),
and the string conversions `str(Decimal)` / `Decimal(str)` are modelled by
`toSci` / `parseDec`, following the algorithm of CPython `decimal.py`
(`__str__` and the numeric-literal parse; the underscore/whitespace
tolerance of the parser is not modelled, and the conversion of binary
floats to strings is outside the model and surfaces as `VErr.unmodeled`).

Each `raise ValueError(...)` site of the source is mapped to a
constructor of `VErr`.
-/

/-- A Python float: an exact finite value, or one of the non-finite values. -/
inductive FloatVal where
  | finite (q : ℚ)
  | pinf
  | ninf
  | nan
deriving DecidableEq, Repr

/-- A Python `decimal.Decimal` as returned by `as_tuple()`:
sign flag, coefficient digits (most significant first), exponent. -/
structure DecTup where
  sign : Bool
  digits : List ℕ
  exp : ℤ
deriving DecidableEq, Repr

/-- The Python values that flow through the db_types API.  `vOther tag`
stands for a value of any further type; `tag` models its `str()` text. -/
inductive PyVal where
  | vNone
  | vInt (n : ℤ)
  | vFloat (f : FloatVal)
  | vStr (s : List Char)
  | vDec (d : DecTup)
  | vBytes (b : List ℕ)
  | vBytearray (b : List ℕ)
  | vOther (tag : List Char)
deriving DecidableEq, Repr

/-- One constructor per distinct `raise` site category in the source.
`unmodeled` marks the host-language conversions (binary-float `repr`,
`bytes` repr) that this embedding does not model. -/
inductive VErr where
  | typeMismatch
  | nonIntegralFloat
  | outOfRange
  | convError
  | precisionExceeded
  | scaleExceeded
  | lengthExceeded
  | coerceFailed
  | impossibleConstraints
  | unmodeled
deriving DecidableEq, Repr

/-! ## Bounded integer types (numeric.py INTEGER / BIGINT / SMALLINT)

The three classes have textually identical `validate` bodies except for
the `MIN_VALUE` / `MAX_VALUE` constants, so they share one core here. -/

/-- `INTEGER.validate` / `BIGINT.validate` / `SMALLINT.validate`:
`None` passes; non-`int`/`float` raises; a float with a fractional part
raises; then `int(value)` is range-checked against `[mn, mx]`. -/
def integerValidateCore (mn mx : ℤ) (v : PyVal) : Except VErr Unit :=
  match v with
  | .vNone => .ok ()
  | .vInt n => if n < mn ∨ n > mx then .error .outOfRange else .ok ()
  | .vFloat f =>
    match f with
    | .finite q =>
      if q.den ≠ 1 then .error .nonIntegralFloat
      else if q.num < mn ∨ q.num > mx then .error .outOfRange else .ok ()
    | _ => .error .nonIntegralFloat
  | _ => .error .typeMismatch

def INTEGER.MIN_VALUE : ℤ := -2147483648
def INTEGER.MAX_VALUE : ℤ := 2147483647
def INTEGER.validate : PyVal → Except VErr Unit :=
  integerValidateCore INTEGER.MIN_VALUE INTEGER.MAX_VALUE

def BIGINT.MIN_VALUE : ℤ := -9223372036854775808
def BIGINT.MAX_VALUE : ℤ := 9223372036854775807
def BIGINT.validate : PyVal → Except VErr Unit :=
  integerValidateCore BIGINT.MIN_VALUE BIGINT.MAX_VALUE

def SMALLINT.MIN_VALUE : ℤ := -32768
def SMALLINT.MAX_VALUE : ℤ := 32767
def SMALLINT.validate : PyVal → Except VErr Unit :=
  integerValidateCore SMALLINT.MIN_VALUE SMALLINT.MAX_VALUE

/-! ## Float types (numeric.py FLOAT / REAL / DOUBLE)

All three `validate` bodies are identical: `None` passes, any `int` or
`float` (finite or not) passes, everything else raises. -/

def floatValidateCore (v : PyVal) : Except VErr Unit :=
  match v with
  | .vNone => .ok ()
  | .vInt _ => .ok ()
  | .vFloat _ => .ok ()
  | _ => .error .typeMismatch

def FLOAT.validate : PyVal → Except VErr Unit := floatValidateCore
def REAL.validate : PyVal → Except VErr Unit := floatValidateCore
def DOUBLE.validate : PyVal → Except VErr Unit := floatValidateCore

/-! ## Decimal string conversion

`toSci` is CPython `decimal.py`'s `__str__` (to-scientific-string);
`parseDec` is the numeric-literal parse performed by `Decimal(str)`. -/

/-- One coefficient digit rendered as a character (`str` of a digit). -/
def digitChar : ℕ → Char
  | 0 => '0'
  | 1 => '1'
  | 2 => '2'
  | 3 => '3'
  | 4 => '4'
  | 5 => '5'
  | 6 => '6'
  | 7 => '7'
  | 8 => '8'
  | 9 => '9'
  | _ => '?'

def digitsToChars (ds : List ℕ) : List Char := ds.map digitChar

/-- Little-endian base-10 digits, by fuel recursion (kernel-reducible). -/
def digitsRevAux : ℕ → ℕ → List ℕ
  | _, 0 => []
  | 0, _ + 1 => []
  | fuel + 1, n + 1 => ((n + 1) % 10) :: digitsRevAux fuel ((n + 1) / 10)

/-- Base-10 digits of a natural number, most significant first
(`str` of a nonnegative integer), with `natDigitsBE 0 = [0]`. -/
def natDigitsBE (n : ℕ) : List ℕ :=
  if n = 0 then [0] else (digitsRevAux n n).reverse

/-- `'0' ≤ c ≤ '9'`, the digit test of the decimal literal grammar. -/
def isDigitCh (c : Char) : Bool := decide ('0' ≤ c) && decide (c ≤ '9')

/-- Consume a maximal run of digit characters, returning their values and
the rest of the input. -/
def takeDigits : List Char → List ℕ × List Char
  | [] => ([], [])
  | c :: rest =>
    if isDigitCh c then
      let p := takeDigits rest
      ((c.toNat - 48) :: p.1, p.2)
    else ([], c :: rest)

/-- Consume an optional leading sign. -/
def parseSign : List Char → Bool × List Char
  | '-' :: r => (true, r)
  | '+' :: r => (false, r)
  | r => (false, r)

/-- Remove leading zero digits (the effect of `str(int(intpart + fracpart))`
on the digit string, before the empty case is sent to `[0]`). -/
def stripZeros : List ℕ → List ℕ
  | [] => []
  | 0 :: rest => stripZeros rest
  | ds => ds

/-- Value of a big-endian digit list. -/
def ofDigitsBE (ds : List ℕ) : ℕ := ds.foldl (fun a d => 10 * a + d) 0

/-- Parse the part after `E`/`e`: optional sign then mandatory digits,
consuming the whole rest of the input. -/
def parseExpPart (cs : List Char) : Option ℤ :=
  let s := parseSign cs
  let ds := takeDigits s.2
  if ds.1 = [] then none
  else if ds.2 = [] then
    some (if s.1 then -(ofDigitsBE ds.1 : ℤ) else (ofDigitsBE ds.1 : ℤ))
  else none

/-- Parse a decimal literal after its sign was consumed. -/
def parseUnsigned (sgn : Bool) (cs : List Char) : Option DecTup :=
  let ipr := takeDigits cs
  let fpr : List ℕ × List Char :=
    match ipr.2 with
    | '.' :: rest => takeDigits rest
    | r => ([], r)
  if ipr.1 = [] ∧ fpr.1 = [] then none
  else
    let c0 := stripZeros (ipr.1 ++ fpr.1)
    let coeff := if c0 = [] then [0] else c0
    match fpr.2 with
    | [] => some ⟨sgn, coeff, -(fpr.1.length : ℤ)⟩
    | c :: rest =>
      if c = 'E' ∨ c = 'e' then
        match parseExpPart rest with
        | some ez => some ⟨sgn, coeff, ez - (fpr.1.length : ℤ)⟩
        | none => none
      else none

/-- `Decimal(string)`: sign, integer digits, optional fraction, optional
exponent.  Returns `none` where CPython raises `InvalidOperation`. -/
def parseDec (cs : List Char) : Option DecTup :=
  let s1 := parseSign cs
  parseUnsigned s1.1 s1.2

/-- Render an exponent as `"%+d"` does: explicit sign, then digits. -/
def expChars (e : ℤ) : List Char :=
  (if e < 0 then ['-'] else ['+']) ++ digitsToChars (natDigitsBE e.natAbs)

/-- `str(Decimal)`: CPython `decimal.py __str__` on the tuple
representation (the non-engineering branch). -/
def toSci (d : DecTup) : List Char :=
  let ld : ℤ := d.exp + (d.digits.length : ℤ)
  let dotplace : ℤ := if d.exp ≤ 0 ∧ ld > -6 then ld else 1
  let ip : List Char :=
    if dotplace ≤ 0 then ['0']
    else if dotplace ≥ (d.digits.length : ℤ) then
      digitsToChars d.digits ++ List.replicate (dotplace - (d.digits.length : ℤ)).toNat '0'
    else digitsToChars (d.digits.take dotplace.toNat)
  let fp : List Char :=
    if dotplace ≤ 0 then
      '.' :: (List.replicate (-dotplace).toNat '0' ++ digitsToChars d.digits)
    else if dotplace ≥ (d.digits.length : ℤ) then []
    else '.' :: digitsToChars (d.digits.drop dotplace.toNat)
  let ep : List Char := if ld = dotplace then [] else 'E' :: expChars (ld - dotplace)
  (if d.sign then ['-'] else []) ++ ip ++ fp ++ ep

/-- `Decimal(str(n))` for a Python int `n`. -/
def decOfInt (n : ℤ) : DecTup := ⟨decide (n < 0), natDigitsBE n.natAbs, 0⟩

/-- The shape invariant of every `Decimal` built from a string or an int:
a nonempty coefficient of decimal digits with no leading zero (except the
single digit of zero itself). -/
def DecTup.Canonical (d : DecTup) : Prop :=
  d.digits ≠ [] ∧ (∀ x ∈ d.digits, x < 10) ∧ (d.digits.head? = some 0 → d.digits = [0])

instance (d : DecTup) : Decidable d.Canonical := by
  unfold DecTup.Canonical; infer_instance

/-! ## DECIMAL (numeric.py DECIMAL / NUMERIC) -/

/-- The inputs to the DECIMAL operations covered by this model.  A Python
float input would flow through the binary-float `str` conversion, which is
outside this embedding. -/
inductive DecVal where
  | dNone
  | dInt (n : ℤ)
  | dStr (s : List Char)
  | dDec (d : DecTup)
  | dOther (tag : List Char)
deriving DecidableEq, Repr

/-- `Decimal(str(value))` for the modelled DECIMAL inputs. -/
def decOfDecVal : DecVal → Option DecTup
  | .dInt n => some (decOfInt n)
  | .dStr s => parseDec s
  | .dDec d => parseDec (toSci d)
  | _ => none

/-- Number of digits of the coefficient (`len(digits)` of `as_tuple()`). -/
def DecTup.totalDigits (d : DecTup) : ℕ := d.digits.length

/-- `-exponent if exponent < 0 else 0`: the fractional-digit count. -/
def DecTup.decimalPlaces (d : DecTup) : ℤ := if d.exp < 0 then -d.exp else 0

/-- Digits left of the decimal point (used only to state the spec's
precision rule, which the code does not implement). -/
def DecTup.intDigits (d : DecTup) : ℤ := max ((d.digits.length : ℤ) + d.exp) 0

/-- The precision/scale checks of `DECIMAL.validate` (numeric.py lines
150-160): total digits against `precision`, then decimal places against
`scale`. -/
def DECIMAL.checkDigits (precision scale : ℕ) (d : DecTup) : Except VErr Unit :=
  if d.totalDigits > precision then .error .precisionExceeded
  else if d.decimalPlaces > (scale : ℤ) then .error .scaleExceeded
  else .ok ()

/-- `DECIMAL.validate`: `None` passes; non-numeric types raise; the value
is parsed with `Decimal(str(value))` (parse failure raises); then the
precision/scale checks run. -/
def DECIMAL.validate (precision scale : ℕ) (v : DecVal) : Except VErr Unit :=
  match v with
  | .dNone => .ok ()
  | .dOther _ => .error .typeMismatch
  | v =>
    match decOfDecVal v with
    | none => .error .convError
    | some d => DECIMAL.checkDigits precision scale d

/-- `DBType.serialize` specialised to DECIMAL: `None` maps to `None`,
otherwise `validate` runs and `_serialize` returns `str(Decimal(str(value)))`. -/
def DECIMAL.serialize (precision scale : ℕ) (v : DecVal) :
    Except VErr (Option (List Char)) :=
  match v with
  | .dNone => .ok none
  | v => do
    DECIMAL.validate precision scale v
    match decOfDecVal v with
    | some d => .ok (some (toSci d))
    | none => .error .convError

/-- `DBType.deserialize` specialised to DECIMAL: `None` maps to `None`,
otherwise `_deserialize` builds `Decimal(str(value))` (failure raises) and
the result is re-validated before being returned. -/
def DECIMAL.deserialize (precision scale : ℕ) (v : DecVal) :
    Except VErr (Option DecTup) :=
  match v with
  | .dNone => .ok none
  | v =>
    match decOfDecVal v with
    | none => .error .coerceFailed
    | some d => do
      DECIMAL.validate precision scale (.dDec d)
      .ok (some d)

/-! ## String types (string.py VARCHAR / CHAR / TEXT) -/

/-- The characters Python `str.rstrip()` removes (ASCII part of
`str.isspace()`; the characters of this model never include the further
Unicode whitespace). -/
def isPySpace (c : Char) : Bool :=
  c = ' ' || c = '\t' || c = '\n' || c = '\r' || c = '\x0b' || c = '\x0c'

/-- Python `str.rstrip()`. -/
def rstripWs (s : List Char) : List Char :=
  (s.reverse.dropWhile isPySpace).reverse

/-- Python `str.ljust(n)`: pad on the right with spaces up to length `n`. -/
def ljustSp (s : List Char) (n : ℕ) : List Char :=
  s ++ List.replicate (n - s.length) ' '

/-- `str(value)` as used by the `_deserialize` methods.  The `repr` of a
binary float or of a bytes object is outside the model. -/
def strOfVal : PyVal → Except VErr (List Char)
  | .vNone => .ok "None".toList
  | .vInt n => .ok ((if n < 0 then ['-'] else []) ++ digitsToChars (natDigitsBE n.natAbs))
  | .vFloat _ => .error .unmodeled
  | .vStr s => .ok s
  | .vDec d => .ok (toSci d)
  | .vBytes _ => .error .unmodeled
  | .vBytearray _ => .error .unmodeled
  | .vOther tag => .ok tag

/-- `VARCHAR.validate` / `CHAR.validate`: `None` passes; non-strings
raise; a string longer than the capacity raises. -/
def stringValidateCore (length : ℕ) (v : PyVal) : Except VErr Unit :=
  match v with
  | .vNone => .ok ()
  | .vStr s => if s.length > length then .error .lengthExceeded else .ok ()
  | _ => .error .typeMismatch

def VARCHAR.validate (length : ℕ) : PyVal → Except VErr Unit :=
  stringValidateCore length

def CHAR.validate (length : ℕ) : PyVal → Except VErr Unit :=
  stringValidateCore length

/-- `TEXT.validate`: the length check runs only when `max_length` is
truthy (`None` and `0` both skip it). -/
def TEXT.validate (maxLength : Option ℕ) (v : PyVal) : Except VErr Unit :=
  match v with
  | .vNone => .ok ()
  | .vStr s =>
    match maxLength with
    | some k => if k ≠ 0 ∧ s.length > k then .error .lengthExceeded else .ok ()
    | none => .ok ()
  | _ => .error .typeMismatch

/-- `DBType.serialize` specialised to CHAR: validate, then pad with
trailing spaces to the declared length. -/
def CHAR.serialize (length : ℕ) (v : PyVal) : Except VErr (Option (List Char)) :=
  match v with
  | .vNone => .ok none
  | v => do
    CHAR.validate length v
    match v with
    | .vStr s => .ok (some (ljustSp s length))
    | _ => .error .coerceFailed

/-- `DBType.deserialize` specialised to CHAR: `str(value).rstrip()`, then
re-validate the result. -/
def CHAR.deserialize (length : ℕ) (v : PyVal) : Except VErr (Option (List Char)) :=
  match v with
  | .vNone => .ok none
  | v => do
    let s ← strOfVal v
    let r := rstripWs s
    CHAR.validate length (.vStr r)
    .ok (some r)

/-! ## Binary types (binary.py BINARY / VARBINARY / BLOB) -/

/-- The `bytes`/`bytearray`/`str → bytes` conversion shared by the binary
validators (`value.encode("utf-8")` for strings). -/
def utf8EncodeChar (c : Char) : List ℕ :=
  let n := c.toNat
  if n < 128 then [n]
  else if n < 2048 then [192 + n / 64, 128 + n % 64]
  else if n < 65536 then [224 + n / 4096, 128 + (n / 64) % 64, 128 + n % 64]
  else [240 + n / 262144, 128 + (n / 4096) % 64, 128 + (n / 64) % 64, 128 + n % 64]

def utf8Encode (s : List Char) : List ℕ := (s.map utf8EncodeChar).flatten

/-- `bytes.fromhex` on a string without interior whitespace. -/
def hexVal (c : Char) : Option ℕ :=
  if '0' ≤ c ∧ c ≤ '9' then some (c.toNat - 48)
  else if 'a' ≤ c ∧ c ≤ 'f' then some (c.toNat - 87)
  else if 'A' ≤ c ∧ c ≤ 'F' then some (c.toNat - 55)
  else none

def hexDecode : List Char → Option (List ℕ)
  | [] => some []
  | c1 :: c2 :: rest => do
    let h ← hexVal c1
    let l ← hexVal c2
    let r ← hexDecode rest
    pure ((16 * h + l) :: r)
  | [_] => none

/-- `bytes.rstrip(b"\x00")`. -/
def rstripNulls (b : List ℕ) : List ℕ :=
  (b.reverse.dropWhile (· = 0)).reverse

/-- The byte view a binary validator takes of its input, `none` when the
input is not `bytes`/`bytearray`/`str`. -/
def bytesView : PyVal → Option (List ℕ)
  | .vBytes b => some b
  | .vBytearray b => some b
  | .vStr s => some (utf8Encode s)
  | _ => none

/-- `BINARY.validate` / `VARBINARY.validate`: `None` passes; non-binary
types raise; the byte length is checked against the capacity. -/
def binaryValidateCore (length : ℕ) (v : PyVal) : Except VErr Unit :=
  match v with
  | .vNone => .ok ()
  | v =>
    match bytesView v with
    | some b => if b.length > length then .error .lengthExceeded else .ok ()
    | none => .error .typeMismatch

/-- `BLOB.validate`: the length check runs only when `max_length` is
truthy. -/
def BLOB.validate (maxLength : Option ℕ) (v : PyVal) : Except VErr Unit :=
  match v with
  | .vNone => .ok ()
  | v =>
    match bytesView v with
    | some b =>
      match maxLength with
      | some k => if k ≠ 0 ∧ b.length > k then .error .lengthExceeded else .ok ()
      | none => .ok ()
    | none => .error .typeMismatch

/-- The `_deserialize` of the binary types on a non-bytes, non-str input:
`bytes(value)` (zero-filled for a nonnegative int, raising otherwise). -/
def bytesCoerceOther : PyVal → Except VErr (List ℕ)
  | .vInt n => if 0 ≤ n then .ok (List.replicate n.toNat 0) else .error .coerceFailed
  | _ => .error .coerceFailed

/-- `BINARY._deserialize` body: bytes get their `b"\x00"` padding
stripped; strings are tried as hex, falling back to UTF-8. -/
def BINARY.under : PyVal → Except VErr (List ℕ)
  | .vBytes b => .ok (rstripNulls b)
  | .vBytearray b => .ok (rstripNulls b)
  | .vStr s =>
    match hexDecode s with
    | some b => .ok b
    | none => .ok (utf8Encode s)
  | v => bytesCoerceOther v

/-- `VARBINARY._deserialize` / `BLOB._deserialize` body. -/
def varbinaryUnder : PyVal → Except VErr (List ℕ)
  | .vBytes b => .ok b
  | .vBytearray b => .ok b
  | .vStr s =>
    match hexDecode s with
    | some b => .ok b
    | none => .ok (utf8Encode s)
  | v => bytesCoerceOther v

/-! ## The uniform type layer (base.py DBType)

`base.py` gives every type the same `serialize`/`deserialize` shape:
`None` short-circuits to `None`; `serialize` validates then calls
`_serialize`; `deserialize` calls `_deserialize` then re-validates the
result before returning it.  `DBT` enumerates the concrete types of the
source tree and dispatches that shape. -/

/-- The concrete `DBType` subclasses present in the source tree
(`boolean.py` and `temporal.py` are not in it). -/
inductive DBT where
  | tInteger
  | tBigint
  | tSmallint
  | tDecimal (precision scale : ℕ)
  | tFloat
  | tReal
  | tDouble
  | tVarchar (length : ℕ)
  | tChar (length : ℕ)
  | tText (maxLength : Option ℕ)
  | tBinary (length : ℕ)
  | tVarbinary (maxLength : ℕ)
  | tBlob (maxLength : Option ℕ)
deriving DecidableEq, Repr

/-- Truncation toward zero, Python `int()` of an exact rational. -/
def ratTrunc (q : ℚ) : ℤ :=
  if 0 ≤ q.num then q.num.ediv (q.den : ℤ) else -((-q.num).ediv (q.den : ℤ))

/-- Truncation toward zero of a decimal tuple, Python `int(Decimal)`. -/
def decTrunc (d : DecTup) : ℤ :=
  let n : ℕ :=
    if 0 ≤ d.exp then ofDigitsBE d.digits * 10 ^ d.exp.toNat
    else ofDigitsBE d.digits / 10 ^ (-d.exp).toNat
  if d.sign then -(n : ℤ) else (n : ℤ)

/-- A decimal integer literal: optional sign then digits, fully consumed. -/
def parseIntLit (cs : List Char) : Option ℤ :=
  let s := parseSign cs
  let ds := takeDigits s.2
  if ds.1 = [] ∨ ds.2 ≠ [] then none
  else some (if s.1 then -(ofDigitsBE ds.1 : ℤ) else (ofDigitsBE ds.1 : ℤ))

/-- Python `int(value)` as used by the integer `_serialize`/`_deserialize`. -/
def intCoerce : PyVal → Except VErr ℤ
  | .vInt n => .ok n
  | .vFloat (.finite q) => .ok (ratTrunc q)
  | .vFloat _ => .error .coerceFailed
  | .vStr s =>
    match parseIntLit s with
    | some n => .ok n
    | none => .error .coerceFailed
  | .vDec d => .ok (decTrunc d)
  | _ => .error .coerceFailed

/-- `Decimal(str(value))` on the uniform value type (binary-float inputs
are outside the model). -/
def decOfPyVal : PyVal → Except VErr DecTup
  | .vInt n => .ok (decOfInt n)
  | .vStr s =>
    match parseDec s with
    | some d => .ok d
    | none => .error .coerceFailed
  | .vDec d =>
    match parseDec (toSci d) with
    | some d2 => .ok d2
    | none => .error .coerceFailed
  | .vFloat _ => .error .unmodeled
  | _ => .error .coerceFailed

/-- Python `float(value)` (string and decimal inputs round through binary
floats, outside the model). -/
def floatCoerce : PyVal → Except VErr FloatVal
  | .vInt n => .ok (.finite (n : ℚ))
  | .vFloat f => .ok f
  | .vStr _ => .error .unmodeled
  | .vDec _ => .error .unmodeled
  | _ => .error .coerceFailed

/-- `DECIMAL.validate` lifted to the uniform value type. -/
def DECIMAL.validatePy (precision scale : ℕ) (v : PyVal) : Except VErr Unit :=
  match v with
  | .vNone => DECIMAL.validate precision scale .dNone
  | .vInt n => DECIMAL.validate precision scale (.dInt n)
  | .vStr s => DECIMAL.validate precision scale (.dStr s)
  | .vDec d => DECIMAL.validate precision scale (.dDec d)
  | .vFloat _ => .error .unmodeled
  | _ => .error .typeMismatch

/-- The `validate` method of each concrete type. -/
def dbtValidate : DBT → PyVal → Except VErr Unit
  | .tInteger => INTEGER.validate
  | .tBigint => BIGINT.validate
  | .tSmallint => SMALLINT.validate
  | .tDecimal p s => DECIMAL.validatePy p s
  | .tFloat => FLOAT.validate
  | .tReal => REAL.validate
  | .tDouble => DOUBLE.validate
  | .tVarchar n => VARCHAR.validate n
  | .tChar n => CHAR.validate n
  | .tText m => TEXT.validate m
  | .tBinary n => binaryValidateCore n
  | .tVarbinary n => binaryValidateCore n
  | .tBlob m => BLOB.validate m

/-- The `_serialize` method of each concrete type. -/
def dbtSer : DBT → PyVal → Except VErr PyVal
  | .tInteger, v | .tBigint, v | .tSmallint, v => (intCoerce v).map .vInt
  | .tDecimal _ _, v => (decOfPyVal v).map fun d => .vStr (toSci d)
  | .tFloat, v | .tReal, v | .tDouble, v => (floatCoerce v).map .vFloat
  | .tVarchar _, v | .tText _, v => .ok v
  | .tChar n, v =>
    match v with
    | .vStr s => .ok (.vStr (ljustSp s n))
    | _ => .error .coerceFailed
  | .tBinary n, v =>
    match bytesView v with
    | some b => .ok (.vBytes (b ++ List.replicate (n - b.length) 0))
    | none => .error .coerceFailed
  | .tVarbinary _, v | .tBlob _, v =>
    match bytesView v with
    | some b => .ok (.vBytes b)
    | none => .error .coerceFailed

/-- The `_deserialize` method of each concrete type. -/
def dbtUnder : DBT → PyVal → Except VErr PyVal
  | .tInteger, v | .tBigint, v | .tSmallint, v => (intCoerce v).map .vInt
  | .tDecimal _ _, v => (decOfPyVal v).map .vDec
  | .tFloat, v | .tReal, v | .tDouble, v => (floatCoerce v).map .vFloat
  | .tVarchar _, v | .tText _, v => (strOfVal v).map .vStr
  | .tChar _, v => (strOfVal v).map fun s => .vStr (rstripWs s)
  | .tBinary _, v => (BINARY.under v).map .vBytes
  | .tVarbinary _, v | .tBlob _, v => (varbinaryUnder v).map .vBytes

/-- `DBType.serialize` (base.py lines 39-52): `None` maps to `None`;
otherwise `validate` then `_serialize`. -/
def dbtSerialize (t : DBT) (v : PyVal) : Except VErr PyVal :=
  match v with
  | .vNone => .ok .vNone
  | v => do
    dbtValidate t v
    dbtSer t v

/-- `DBType.deserialize` (base.py lines 54-68): `None` maps to `None`;
otherwise `_deserialize`, re-validate the result, and return it. -/
def dbtDeserialize (t : DBT) (v : PyVal) : Except VErr PyVal :=
  match v with
  | .vNone => .ok .vNone
  | v => do
    let d ← dbtUnder t v
    dbtValidate t d
    .ok d

/-! ## Bounded-integer mock generation

Modelled from the spec: the implementation file `mocksmith/types/numeric.py`
(the bounded-integer types with `gt`/`ge`/`lt`/`le`/`multiple_of`
constraints and their `mock()`) is not in the source tree — only its tests
and the annotation wrappers are — so the effective-domain computation and
sampling are taken from spec §4.1: the constraint interval is intersected
with the storage bounds *before* sampling, narrowed to multiples when
`multiple_of` is set, and a uniform sample is drawn from the resulting
domain (the RNG is modelled as an arbitrary seed, reduced by modulus). -/

structure IntConstraints where
  gt : Option ℤ
  ge : Option ℤ
  lt : Option ℤ
  le : Option ℤ
  multipleOf : Option ℤ
deriving DecidableEq, Repr

/-- Modelled from the spec: `effective_min = max(storage_min, (gt+1) if gt
else ge or storage_min)`. -/
def effectiveMin (storageMin : ℤ) (c : IntConstraints) : ℤ :=
  max storageMin
    (match c.gt with
     | some g => g + 1
     | none =>
       match c.ge with
       | some g => g
       | none => storageMin)

/-- Modelled from the spec: `effective_max = min(storage_max, (lt-1) if lt
else le or storage_max)`. -/
def effectiveMax (storageMax : ℤ) (c : IntConstraints) : ℤ :=
  min storageMax
    (match c.lt with
     | some l => l - 1
     | none =>
       match c.le with
       | some l => l
       | none => storageMax)

/-- Modelled from the spec: `mock()` of a bounded integer type.  The
domain `[effective_min, effective_max]` (narrowed to multiples of
`multiple_of` when set) is computed first; an empty domain raises
`ImpossibleConstraintSet`; otherwise the seed indexes uniformly into the
domain. -/
def mockInt (storageMin storageMax : ℤ) (c : IntConstraints) (seed : ℕ) :
    Except VErr ℤ :=
  let lo := effectiveMin storageMin c
  let hi := effectiveMax storageMax c
  match c.multipleOf with
  | none =>
    if lo > hi then .error .impossibleConstraints
    else .ok (lo + ((seed % (hi - lo + 1).toNat : ℕ) : ℤ))
  | some m =>
    let lo2 := m * ((lo + m - 1).ediv m)
    let hi2 := m * (hi.ediv m)
    if lo2 > hi2 then .error .impossibleConstraints
    else .ok (lo2 + m * ((seed % ((hi2 - lo2).ediv m + 1).toNat : ℕ) : ℤ))

/-- The storage bounds of an 8-bit signed integer (spec glossary). -/
def TINYINT.MIN_VALUE : ℤ := -128
def TINYINT.MAX_VALUE : ℤ := 127

/-- `TinyInt(gt=5)`: the declared constraint set of the regression test. -/
def tinyIntGt5 : IntConstraints := ⟨some 5, none, none, none, none⟩

/-- `TinyInt(gt=5).mock()` as a function of the RNG seed. -/
def tinyIntGt5Mock (seed : ℕ) : Except VErr ℤ :=
  mockInt TINYINT.MIN_VALUE TINYINT.MAX_VALUE tinyIntGt5 seed

/-- The head of a character list is not a digit (used to delimit
`takeDigits`). -/
def headNotDigit : List Char → Prop
  | [] => True
  | c :: _ => isDigitCh c = false

/-- The head of a character list is not a sign character (so `parseSign`
consumes nothing). -/
def headNotSign : List Char → Prop
  | [] => True
  | c :: _ => c ≠ '-' ∧ c ≠ '+'

/-! ## Digit-character lemmas -/

theorem digitChar_isDigit {x : ℕ} (h : x < 10) : isDigitCh (digitChar x) = true := by
  interval_cases x <;> decide

theorem digitChar_toNat {x : ℕ} (h : x < 10) : (digitChar x).toNat - 48 = x := by
  interval_cases x <;> decide

theorem digitChar_ne_E (x : ℕ) : digitChar x ≠ 'E' := by
  unfold digitChar; split <;> decide

theorem digitChar_ne_minus (x : ℕ) : digitChar x ≠ '-' := by
  unfold digitChar; split <;> decide

theorem digitChar_ne_plus (x : ℕ) : digitChar x ≠ '+' := by
  unfold digitChar; split <;> decide

theorem takeDigits_nondigit (rest : List Char) (h : headNotDigit rest) :
    takeDigits rest = ([], rest) := by
  cases rest with
  | nil => rfl
  | cons c t =>
    unfold headNotDigit at h
    unfold takeDigits
    simp [h]

theorem takeDigits_digits_append (ds : List ℕ) (rest : List Char)
    (hds : ∀ x ∈ ds, x < 10) (hrest : headNotDigit rest) :
    takeDigits (digitsToChars ds ++ rest) = (ds, rest) := by
  induction ds with
  | nil =>
    simpa [digitsToChars] using takeDigits_nondigit rest hrest
  | cons d tl ih =>
    have hd : d < 10 := hds d (by simp)
    have htl : ∀ x ∈ tl, x < 10 := fun x hx => hds x (by simp [hx])
    unfold digitsToChars at *
    simp only [List.map_cons, List.cons_append]
    unfold takeDigits
    simp [digitChar_isDigit hd, digitChar_toNat hd, ih htl]

theorem foldr_digitsRevAux :
    ∀ fuel n, n ≤ fuel →
      (digitsRevAux fuel n).foldr (fun d a => 10 * a + d) 0 = n := by
  intro fuel
  induction fuel with
  | zero =>
    intro n h
    interval_cases n
    rfl
  | succ fuel ih =>
    intro n h
    match n with
    | 0 => rfl
    | m + 1 =>
      have hdiv : (m + 1) / 10 ≤ fuel := by
        have := Nat.div_lt_self (Nat.succ_pos m) (by norm_num : 1 < 10)
        omega
      unfold digitsRevAux
      simp only [List.foldr_cons]
      rw [ih _ hdiv]
      exact Nat.div_add_mod (m + 1) 10

theorem ofDigitsBE_natDigitsBE (n : ℕ) : ofDigitsBE (natDigitsBE n) = n := by
  unfold natDigitsBE ofDigitsBE
  by_cases h : n = 0
  · simp [h]
  · rw [if_neg h, List.foldl_reverse]
    exact foldr_digitsRevAux n n le_rfl

theorem digitsRevAux_lt :
    ∀ fuel n x, x ∈ digitsRevAux fuel n → x < 10 := by
  intro fuel
  induction fuel with
  | zero =>
    intro n x hx
    cases n <;> simp [digitsRevAux] at hx
  | succ fuel ih =>
    intro n x hx
    match n with
    | 0 => simp [digitsRevAux] at hx
    | m + 1 =>
      unfold digitsRevAux at hx
      rcases List.mem_cons.mp hx with h1 | h2
      · subst h1; exact Nat.mod_lt _ (by norm_num)
      · exact ih _ x h2

theorem natDigitsBE_lt (n : ℕ) : ∀ x ∈ natDigitsBE n, x < 10 := by
  intro x hx
  unfold natDigitsBE at hx
  by_cases h : n = 0
  · simp [h] at hx; omega
  · rw [if_neg h, List.mem_reverse] at hx
    exact digitsRevAux_lt n n x hx

theorem natDigitsBE_ne_nil (n : ℕ) : natDigitsBE n ≠ [] := by
  unfold natDigitsBE
  by_cases h : n = 0
  · simp [h]
  · rw [if_neg h]
    match hn : n with
    | 0 => omega
    | m + 1 => simp [digitsRevAux]

/-! ## stripZeros lemmas -/

theorem stripZeros_zero_cons (L : List ℕ) : stripZeros (0 :: L) = stripZeros L := rfl

theorem stripZeros_replicate_append (k : ℕ) (L : List ℕ) :
    stripZeros (List.replicate k 0 ++ L) = stripZeros L := by
  induction k with
  | zero => simp
  | succ k ih => simpa [List.replicate_succ] using ih

theorem stripZeros_cons_ne {a : ℕ} (ha : a ≠ 0) (L : List ℕ) :
    stripZeros (a :: L) = a :: L := by
  unfold stripZeros
  split
  · simp_all
  · simp_all
  · rfl

/-- On a canonical coefficient, the parser's leading-zero strip (with its
empty-to-`[0]` repair) is the identity. -/
theorem coeff_canonical {d : DecTup} (h : d.Canonical) :
    (if stripZeros d.digits = [] then [0] else stripZeros d.digits) = d.digits := by
  obtain ⟨hne, _, hhead⟩ := h
  cases hd : d.digits with
  | nil => exact absurd hd hne
  | cons a t =>
    by_cases ha : a = 0
    · subst ha
      have h0 : d.digits = [0] := hhead (by rw [hd]; rfl)
      rw [hd] at h0
      cases h0
      simp [stripZeros]
    · rw [stripZeros_cons_ne ha]
      simp

/-! ## Sign and exponent parsing lemmas -/

theorem parseSign_not_sign {c : Char} (t : List Char) (h1 : c ≠ '-') (h2 : c ≠ '+') :
    parseSign (c :: t) = (false, c :: t) := by
  unfold parseSign
  split
  · simp_all
  · simp_all
  · rfl

theorem parseExpPart_expChars (e : ℤ) : parseExpPart (expChars e) = some e := by
  unfold expChars parseExpPart
  by_cases h : e < 0
  · rw [if_pos h]
    have hsign : parseSign ('-' :: digitsToChars (natDigitsBE e.natAbs)) =
        (true, digitsToChars (natDigitsBE e.natAbs)) := rfl
    have htd := takeDigits_digits_append (natDigitsBE e.natAbs) [] (natDigitsBE_lt _) trivial
    simp only [List.cons_append, List.nil_append, List.append_nil] at *
    rw [hsign]
    simp only [htd]
    rw [if_neg (by simpa using natDigitsBE_ne_nil e.natAbs)]
    simp [ofDigitsBE_natDigitsBE]
    rw [abs_of_neg h]
    exact neg_neg e
  · rw [if_neg h]
    have hsign : parseSign ('+' :: digitsToChars (natDigitsBE e.natAbs)) =
        (false, digitsToChars (natDigitsBE e.natAbs)) := rfl
    have htd := takeDigits_digits_append (natDigitsBE e.natAbs) [] (natDigitsBE_lt _) trivial
    simp only [List.cons_append, List.nil_append, List.append_nil] at *
    rw [hsign]
    simp only [htd]
    rw [if_neg (by simpa using natDigitsBE_ne_nil e.natAbs)]
    simp [ofDigitsBE_natDigitsBE]
    omega

/-! ## Parsing the printed shapes -/

theorem headNotDigit_cons (c : Char) (t : List Char) :
    headNotDigit (c :: t) = (isDigitCh c = false) := rfl

theorem parseUnsigned_noexp (sgn : Bool) (I F : List ℕ)
    (hI : ∀ x ∈ I, x < 10) (hF : ∀ x ∈ F, x < 10) (hne : ¬(I = [] ∧ F = [])) :
    parseUnsigned sgn
        (digitsToChars I ++ (if F = [] then [] else '.' :: digitsToChars F)) =
      some ⟨sgn, (if stripZeros (I ++ F) = [] then [0] else stripZeros (I ++ F)),
        -(F.length : ℤ)⟩ := by
  by_cases hF0 : F = []
  · subst hF0
    have hInil : ¬(I = []) := fun hI0 => hne ⟨hI0, rfl⟩
    rw [if_pos rfl]
    unfold parseUnsigned
    rw [takeDigits_digits_append I [] hI trivial]
    simp [hInil]
  · rw [if_neg hF0]
    have htdI : takeDigits (digitsToChars I ++ ('.' :: digitsToChars F)) =
        (I, '.' :: digitsToChars F) :=
      takeDigits_digits_append I _ hI (by simp only [List.nil_append, List.cons_append, headNotDigit_cons]; decide)
    have htdF : takeDigits (digitsToChars F) = (F, []) := by
      simpa using takeDigits_digits_append F [] hF trivial
    unfold parseUnsigned
    rw [htdI]
    simp [htdF, hF0]

theorem parseUnsigned_exp (sgn : Bool) (I F : List ℕ) (e : ℤ)
    (hI : ∀ x ∈ I, x < 10) (hF : ∀ x ∈ F, x < 10) (hne : ¬(I = [] ∧ F = [])) :
    parseUnsigned sgn
        (digitsToChars I ++ (if F = [] then [] else '.' :: digitsToChars F)
          ++ 'E' :: expChars e) =
      some ⟨sgn, (if stripZeros (I ++ F) = [] then [0] else stripZeros (I ++ F)),
        e - (F.length : ℤ)⟩ := by
  by_cases hF0 : F = []
  · subst hF0
    have hInil : ¬(I = []) := fun hI0 => hne ⟨hI0, rfl⟩
    rw [if_pos rfl]
    have htdI : takeDigits (digitsToChars I ++ ([] ++ 'E' :: expChars e)) =
        (I, [] ++ 'E' :: expChars e) :=
      takeDigits_digits_append I _ hI (by simp only [List.nil_append, List.cons_append, headNotDigit_cons]; decide)
    unfold parseUnsigned
    rw [List.append_assoc, htdI]
    simp [hInil, parseExpPart_expChars e]
  · rw [if_neg hF0]
    have htdI : takeDigits (digitsToChars I ++ (('.' :: digitsToChars F) ++ 'E' :: expChars e)) =
        (I, ('.' :: digitsToChars F) ++ 'E' :: expChars e) :=
      takeDigits_digits_append I _ hI (by simp only [List.nil_append, List.cons_append, headNotDigit_cons]; decide)
    have htdF : takeDigits (digitsToChars F ++ 'E' :: expChars e) =
        (F, 'E' :: expChars e) :=
      takeDigits_digits_append F _ hF (by simp only [List.nil_append, List.cons_append, headNotDigit_cons]; decide)
    unfold parseUnsigned
    rw [List.append_assoc, htdI]
    simp [htdF, hF0, parseExpPart_expChars e]

theorem headNotSign_digits (ds : List ℕ) (hne : ds ≠ []) (rest : List Char) :
    headNotSign (digitsToChars ds ++ rest) := by
  cases ds with
  | nil => exact absurd rfl hne
  | cons a t => exact ⟨digitChar_ne_minus a, digitChar_ne_plus a⟩

theorem parseDec_sign_body (sgn : Bool) (body : List Char) (hb : headNotSign body) :
    parseDec ((if sgn then ['-'] else []) ++ body) = parseUnsigned sgn body := by
  cases sgn
  · cases body with
    | nil => rfl
    | cons c t =>
      obtain ⟨h1, h2⟩ := hb
      show parseDec (c :: t) = parseUnsigned false (c :: t)
      unfold parseDec
      rw [parseSign_not_sign t h1 h2]
  · rfl

/-- Printing a canonical decimal tuple and parsing it back is the
identity (CPython: `Decimal(str(d))` reproduces `d` exactly). -/
theorem parseDec_toSci (d : DecTup) (hcan : d.Canonical) : parseDec (toSci d) = some d := by
  obtain ⟨hne, hlt, hhead⟩ := hcan
  have hcoeff := coeff_canonical ⟨hne, hlt, hhead⟩
  have hlen : 0 < d.digits.length := List.length_pos.mpr hne
  by_cases hns : d.exp ≤ 0 ∧ d.exp + (d.digits.length : ℤ) > -6
  · by_cases h0 : d.exp + (d.digits.length : ℤ) ≤ 0
    · -- 0.00ddd form
      have hF : ∀ x ∈ List.replicate (-(d.exp + (d.digits.length : ℤ))).toNat 0 ++ d.digits,
          x < 10 := by
        intro x hx
        rcases List.mem_append.mp hx with h | h
        · rw [List.eq_of_mem_replicate h]; norm_num
        · exact hlt x h
      have hFne : List.replicate (-(d.exp + (d.digits.length : ℤ))).toNat 0 ++ d.digits ≠ [] := by
        simp [hne]
      have hA := parseUnsigned_noexp d.sign [0]
          (List.replicate (-(d.exp + (d.digits.length : ℤ))).toNat 0 ++ d.digits)
          (by intro x hx; simp at hx; omega) hF (by simp [hFne])
      rw [if_neg hFne] at hA
      simp only [digitsToChars, List.map_append, List.map_replicate, List.map_cons,
        List.map_nil, show digitChar 0 = '0' from rfl] at hA
      have hbody : toSci d = (if d.sign then ['-'] else []) ++
          (['0'] ++
            ('.' :: (List.replicate (-(d.exp + (d.digits.length : ℤ))).toNat '0' ++
              List.map digitChar d.digits))) := by
        simp only [toSci, digitsToChars]
        rw [if_pos hns, if_pos h0, if_pos h0, if_pos rfl]
        simp
      rw [hbody, parseDec_sign_body, hA]
      · have hc : stripZeros
            ([0] ++ (List.replicate (-(d.exp + (d.digits.length : ℤ))).toNat 0 ++ d.digits)) =
            stripZeros d.digits := by
          rw [List.singleton_append, stripZeros_zero_cons, stripZeros_replicate_append]
        rw [hc, hcoeff]
        have he : -(((List.replicate (-(d.exp + (d.digits.length : ℤ))).toNat 0 ++
            d.digits).length : ℤ)) = d.exp := by
          simp only [List.length_append, List.length_replicate]
          push_cast
          rw [Int.toNat_of_nonneg (by omega)]
          ring
        rw [he]
      · exact ⟨by decide, by decide⟩
    · by_cases hge : d.exp + (d.digits.length : ℤ) ≥ (d.digits.length : ℤ)
      · -- ddd form (exponent zero)
        have hexp0 : d.exp = 0 := by omega
        have hA := parseUnsigned_noexp d.sign d.digits [] hlt (by simp) (by simp [hne])
        rw [if_pos rfl] at hA
        simp only [List.append_nil] at hA
        have hbody : toSci d = (if d.sign then ['-'] else []) ++ digitsToChars d.digits := by
          simp only [toSci, digitsToChars]
          rw [if_pos hns, if_neg h0, if_neg h0, if_pos hge, if_pos hge, if_pos rfl]
          simp [hexp0]
        rw [hbody, parseDec_sign_body, hA]
        · simp only [List.append_nil, List.length_nil, Nat.cast_zero, neg_zero]
          rw [hcoeff, ← hexp0]
        · have h := headNotSign_digits d.digits hne []
          rwa [List.append_nil] at h
      · -- dd.ddd form
        have htlt : (d.exp + (d.digits.length : ℤ)).toNat < d.digits.length := by omega
        have htpos : 0 < (d.exp + (d.digits.length : ℤ)).toNat := by omega
        have hIne : d.digits.take (d.exp + (d.digits.length : ℤ)).toNat ≠ [] := by
          rw [Ne, List.take_eq_nil_iff]
          push_neg
          exact ⟨by omega, hne⟩
        have hFne : d.digits.drop (d.exp + (d.digits.length : ℤ)).toNat ≠ [] := by
          rw [Ne, List.drop_eq_nil_iff]
          omega
        have hA := parseUnsigned_noexp d.sign
            (d.digits.take (d.exp + (d.digits.length : ℤ)).toNat)
            (d.digits.drop (d.exp + (d.digits.length : ℤ)).toNat)
            (fun x hx => hlt x (List.take_subset _ d.digits hx))
            (fun x hx => hlt x (List.drop_subset _ d.digits hx))
            (by simp [hIne])
        rw [if_neg hFne] at hA
        simp only [digitsToChars] at hA
        have hbody : toSci d = (if d.sign then ['-'] else []) ++
            (List.map digitChar (d.digits.take (d.exp + (d.digits.length : ℤ)).toNat) ++
              ('.' :: List.map digitChar (d.digits.drop (d.exp + (d.digits.length : ℤ)).toNat))) := by
          simp only [toSci, digitsToChars]
          rw [if_pos hns, if_neg h0, if_neg h0, if_neg hge, if_neg hge, if_pos rfl]
          simp
        rw [hbody, parseDec_sign_body, hA]
        · rw [List.take_append_drop, hcoeff]
          have he : -(((d.digits.drop (d.exp + (d.digits.length : ℤ)).toNat).length : ℤ)) =
              d.exp := by
            simp only [List.length_drop]
            omega
          rw [he]
        · exact headNotSign_digits _ hIne _
  · -- scientific form
    have hld : d.exp + (d.digits.length : ℤ) ≠ 1 := by
      rcases not_and_or.mp hns with h1 | h2 <;> omega
    by_cases hge1 : (1:ℤ) ≥ (d.digits.length : ℤ)
    · have hlen1 : d.digits.length = 1 := by omega
      have hA := parseUnsigned_exp d.sign d.digits []
          (d.exp + (d.digits.length : ℤ) - 1) hlt (by simp) (by simp [hne])
      rw [if_pos rfl] at hA
      simp only [List.nil_append, List.append_nil] at hA
      have hbody : toSci d = (if d.sign then ['-'] else []) ++
          (digitsToChars d.digits ++ 'E' :: expChars (d.exp + (d.digits.length : ℤ) - 1)) := by
        simp only [toSci, digitsToChars]
        rw [if_neg hns, if_neg (by norm_num : ¬((1:ℤ) ≤ 0)),
          if_neg (by norm_num : ¬((1:ℤ) ≤ 0)), if_pos hge1, if_pos hge1, if_neg hld]
        simp [hlen1]
      rw [hbody, parseDec_sign_body, hA]
      · simp only [List.append_nil, List.length_nil, Nat.cast_zero, sub_zero]
        rw [hcoeff]
        have he : d.exp + (d.digits.length : ℤ) - 1 = d.exp := by
          rw [hlen1]
          push_cast
          ring
        rw [he]
      · exact headNotSign_digits _ hne _
    · have hlen2 : 2 ≤ d.digits.length := by omega
      have hIne : d.digits.take 1 ≠ [] := by
        rw [Ne, List.take_eq_nil_iff]
        push_neg
        exact ⟨one_ne_zero, hne⟩
      have hFne : d.digits.drop 1 ≠ [] := by
        rw [Ne, List.drop_eq_nil_iff]
        omega
      have hA := parseUnsigned_exp d.sign (d.digits.take 1) (d.digits.drop 1)
          (d.exp + (d.digits.length : ℤ) - 1)
          (fun x hx => hlt x (List.take_subset 1 d.digits hx))
          (fun x hx => hlt x (List.drop_subset 1 d.digits hx))
          (by simp [hIne])
      rw [if_neg hFne] at hA
      simp only [digitsToChars] at hA
      have hbody : toSci d = (if d.sign then ['-'] else []) ++
          ((List.map digitChar (d.digits.take 1) ++
            ('.' :: List.map digitChar (d.digits.drop 1))) ++
              'E' :: expChars (d.exp + (d.digits.length : ℤ) - 1)) := by
        simp only [toSci, digitsToChars]
        rw [if_neg hns, if_neg (by norm_num : ¬((1:ℤ) ≤ 0)),
          if_neg (by norm_num : ¬((1:ℤ) ≤ 0)), if_neg hge1, if_neg hge1, if_neg hld]
        simp
      rw [hbody, parseDec_sign_body, hA]
      · rw [List.take_append_drop, hcoeff]
        have he : d.exp + (d.digits.length : ℤ) - 1 - (((d.digits.drop 1).length : ℤ)) =
            d.exp := by
          simp only [List.length_drop]
          omega
        rw [he]
      · rw [List.append_assoc]
        exact headNotSign_digits _ hIne _

/-! ## Further structural lemmas -/

/-- The coefficient produced by the parser is never empty. -/
theorem parseDec_digits_ne_nil {cs : List Char} {d : DecTup}
    (h : parseDec cs = some d) : d.digits ≠ [] := by
  unfold parseDec parseUnsigned at h
  dsimp only at h
  split at h
  · simp at h
  · split at h
    · injection h with h2
      subst h2
      dsimp only
      split <;> simp_all
    · split at h
      · split at h
        · injection h with h2
          subst h2
          dsimp only
          split <;> simp_all
        · simp at h
      · simp at h

/-- `str(Decimal)` uses exponent notation exactly when the exponent is
positive or the adjusted exponent is below -6 (the scientific branch of
CPython `__str__`). -/
theorem mem_E_toSci (dt : DecTup) (hne : dt.digits ≠ []) :
    ('E' ∈ toSci dt ↔ ¬(dt.exp ≤ 0 ∧ dt.exp + (dt.digits.length : ℤ) > -6)) := by
  have hlen : 0 < dt.digits.length := List.length_pos.mpr hne
  have hdc : ∀ x : ℕ, digitChar x = 'E' ↔ False :=
    fun x => iff_false_intro (digitChar_ne_E x)
  by_cases hns : dt.exp ≤ 0 ∧ dt.exp + (dt.digits.length : ℤ) > -6
  · apply iff_of_false _ (not_not_intro hns)
    intro hmem
    simp only [toSci] at hmem
    rw [if_pos hns, if_pos rfl] at hmem
    split_ifs at hmem <;>
      simp [List.mem_append, List.mem_replicate, List.mem_map, hdc,
        digitsToChars] at hmem <;>
      rcases hmem with h | h
    all_goals
      first
      | (obtain ⟨x, -, hx⟩ := List.mem_map.mp (List.take_subset _ _ h)
         exact (hdc x).mp hx)
      | (obtain ⟨x, -, hx⟩ := List.mem_map.mp (List.drop_subset _ _ h)
         exact (hdc x).mp hx)
  · have hld : dt.exp + (dt.digits.length : ℤ) ≠ 1 := by
      rcases not_and_or.mp hns with h1 | h2 <;> omega
    simp only [toSci]
    rw [if_neg hns, if_neg hld]
    simp [hns, List.mem_append]

/-! ## rstrip lemmas -/

theorem dropWhile_eq_self_iff_head (p : Char → Bool) (l : List Char) :
    l.dropWhile p = l ↔ ∀ c ∈ l.head?, p c = false := by
  cases l with
  | nil => simp
  | cons a t =>
    by_cases h : p a
    · rw [List.dropWhile_cons_of_pos h]
      constructor
      · intro he
        have hlen := congrArg List.length he
        have hle := (List.dropWhile_sublist p (l := t)).length_le
        simp at hlen
        omega
      · intro hc
        simp [h] at hc
    · rw [List.dropWhile_cons_of_neg h]
      simp [h]
  
theorem rstripWs_eq_self_iff (s : List Char) :
    rstripWs s = s ↔ ∀ c ∈ s.getLast?, isPySpace c = false := by
  unfold rstripWs
  rw [List.getLast?_eq_head?_reverse, ← dropWhile_eq_self_iff_head isPySpace s.reverse]
  constructor
  · intro h
    have h2 := congrArg List.reverse h
    simpa using h2
  · intro h
    rw [h, List.reverse_reverse]

theorem rstripWs_append_spaces (s : List Char) (k : ℕ) :
    rstripWs (s ++ List.replicate k ' ') = rstripWs s := by
  unfold rstripWs
  rw [List.reverse_append, List.reverse_replicate,
    List.dropWhile_append_of_pos (by intro a ha; rw [List.eq_of_mem_replicate ha]; rfl)]

theorem rstripWs_length_le (s : List Char) : (rstripWs s).length ≤ s.length := by
  unfold rstripWs
  rw [List.length_reverse]
  have := (List.dropWhile_sublist isPySpace (l := s.reverse)).length_le
  simpa using this

/-! ## Uniform-layer lemmas -/

theorem dbtValidate_none (t : DBT) : dbtValidate t .vNone = .ok () := by
  cases t <;> rfl

theorem deserialize_bind_validate (t : DBT) (u : Except VErr PyVal) (r : PyVal)
    (h : (do
        let d ← u
        dbtValidate t d
        Except.ok d) = Except.ok r) :
    dbtValidate t r = .ok () := by
  cases u with
  | error e => simp [Bind.bind, Except.bind] at h
  | ok x =>
    simp only [Bind.bind, Except.bind] at h
    cases hv : dbtValidate t x with
    | error e => rw [hv] at h; simp at h
    | ok u2 =>
      rw [hv] at h
      injection h with h2
      subst h2
      exact hv

/-! ## Claim theorems -/

/-- C1: for the 8-bit bounded integer type declared with `gt=5` and every
RNG seed, `mock()` (modelled from the spec, its implementation file being
absent from the source tree) returns `v` with `5 < v ≤ 127`: the domain is
intersected with the storage bounds before sampling, so the result never
escapes the 8-bit range. -/
theorem claim_C1_tinyint_gt5_mock_bounds :
    ∀ seed : ℕ, ∃ v : ℤ, tinyIntGt5Mock seed = .ok v ∧ 5 < v ∧ v ≤ 127 := by
  intro seed
  have h : seed % 122 < 122 := Nat.mod_lt _ (by norm_num)
  exact ⟨6 + ((seed % 122 : ℕ) : ℤ), rfl, by omega, by omega⟩

/-- C4 counterexample: `FLOAT.validate` accepts +Infinity, -Infinity and
NaN (there is no finiteness check), contradicting the claim that they
raise a "must be finite" error. -/
theorem claim_C4_counterexample :
    FLOAT.validate (.vFloat .pinf) = .ok () ∧
    FLOAT.validate (.vFloat .ninf) = .ok () ∧
    FLOAT.validate (.vFloat .nan) = .ok () := ⟨rfl, rfl, rfl⟩

/-- C4 amended: `FLOAT.validate` accepts exactly `None` and every value
of Python type `int` or `float` — including the non-finite floats — and
rejects everything else; there is no `allow_inf_nan` option and no
ordering constraint. -/
theorem claim_C4_float_validate_amended :
    ∀ v : PyVal, FLOAT.validate v = .ok () ↔
      (v = .vNone ∨ (∃ n, v = .vInt n) ∨ (∃ f, v = .vFloat f)) := by
  intro v
  cases v <;> simp [FLOAT.validate, floatValidateCore]

/-- C5 counterexample: the integer `validate` rejects the numeric string
`"123"` with a type error, contradicting the claim that numeric strings
are accepted and coerced. -/
theorem claim_C5_counterexample :
    INTEGER.validate (.vStr "123".toList) = .error .typeMismatch := rfl

/-- C5 amended: the bounded integer types accept `None`, in-range
integers, and in-range integral floats; a float with a fractional part
(or a non-finite float) raises the integral-float error; strings — numeric
or not — and all other types raise a type error. -/
theorem claim_C5_integer_coercion_amended :
    (∀ mn mx : ℤ, ∀ v : PyVal,
      integerValidateCore mn mx v = .ok () ↔
        (v = .vNone ∨ (∃ n, v = .vInt n ∧ mn ≤ n ∧ n ≤ mx) ∨
          (∃ q : ℚ, v = .vFloat (.finite q) ∧ q.den = 1 ∧ mn ≤ q.num ∧ q.num ≤ mx))) ∧
    (∀ mn mx : ℤ, ∀ s, integerValidateCore mn mx (.vStr s) = .error .typeMismatch) ∧
    (∀ mn mx : ℤ, ∀ q : ℚ, q.den ≠ 1 →
      integerValidateCore mn mx (.vFloat (.finite q)) = .error .nonIntegralFloat) ∧
    (∀ mn mx : ℤ, ∀ tg, integerValidateCore mn mx (.vOther tg) = .error .typeMismatch) ∧
    INTEGER.validate = integerValidateCore INTEGER.MIN_VALUE INTEGER.MAX_VALUE ∧
    BIGINT.validate = integerValidateCore BIGINT.MIN_VALUE BIGINT.MAX_VALUE ∧
    SMALLINT.validate = integerValidateCore SMALLINT.MIN_VALUE SMALLINT.MAX_VALUE := by
  refine ⟨?_, fun mn mx s => rfl, ?_, fun mn mx tg => rfl, rfl, rfl, rfl⟩
  · intro mn mx v
    cases v with
    | vNone => simp [integerValidateCore]
    | vInt n =>
      by_cases h : n < mn ∨ n > mx <;> simp [integerValidateCore, h] <;> omega
    | vFloat f =>
      cases f with
      | finite q =>
        by_cases hd : q.den = 1
        · by_cases h : q.num < mn ∨ q.num > mx <;>
            simp [integerValidateCore, hd, h] <;> omega
        · simp [integerValidateCore, hd]
      | pinf => simp [integerValidateCore]
      | ninf => simp [integerValidateCore]
      | nan => simp [integerValidateCore]
    | vStr s => simp [integerValidateCore]
    | vDec dd => simp [integerValidateCore]
    | vBytes b => simp [integerValidateCore]
    | vBytearray b => simp [integerValidateCore]
    | vOther tg => simp [integerValidateCore]
  · intro mn mx q hq
    simp [integerValidateCore, hq]

/-- C5 witness: the amended theorem at the concrete non-integral float
3/2, which the integer validator rejects with the integral-float error. -/
theorem claim_C5_witness :
    integerValidateCore INTEGER.MIN_VALUE INTEGER.MAX_VALUE
      (.vFloat (.finite (mkRat 3 2))) = .error .nonIntegralFloat :=
  claim_C5_integer_coercion_amended.2.2.1 INTEGER.MIN_VALUE INTEGER.MAX_VALUE
    (mkRat 3 2) (by decide)

/-- C9: for every database type, `None` is accepted by `validate` and
passed through by `serialize` and `deserialize` without invoking the
type-specific logic. -/
theorem claim_C9_none_passthrough :
    ∀ t : DBT, dbtValidate t .vNone = .ok () ∧
      dbtSerialize t .vNone = .ok .vNone ∧
      dbtDeserialize t .vNone = .ok .vNone := by
  intro t
  exact ⟨dbtValidate_none t, rfl, rfl⟩

/-- C10: for every database type, every value `deserialize` returns has
passed that type's `validate`: the base-class `deserialize` re-validates
the `_deserialize` result before returning it. -/
theorem claim_C10_deserialize_revalidates :
    ∀ (t : DBT) (v r : PyVal),
      dbtDeserialize t v = .ok r → dbtValidate t r = .ok () := by
  intro t v r h
  cases v
  case vNone =>
    simp only [dbtDeserialize] at h
    injection h with h2
    subst h2
    exact dbtValidate_none t
  all_goals
    simp only [dbtDeserialize] at h
    exact deserialize_bind_validate t _ r h

/-- C10 witness: the theorem applied to INTEGER deserializing the stored
string "42". -/
theorem claim_C10_witness :
    dbtValidate .tInteger (.vInt 42) = .ok () :=
  claim_C10_deserialize_revalidates .tInteger (.vStr "42".toList) (.vInt 42) (by rfl)

/-- C2 counterexample: `DECIMAL(5,2).validate` accepts `"1234.5"` even
though its integer-digit count (4) exceeds `precision - scale = 3`: the
code checks total digits against `precision`, not integer digits against
`precision - scale`. -/
theorem claim_C2_counterexample :
    DECIMAL.validate 5 2 (.dStr "1234.5".toList) = .ok () ∧
      ∃ dt : DecTup, parseDec "1234.5".toList = some dt ∧
        (5 : ℤ) - 2 < dt.intDigits :=
  ⟨rfl, ⟨⟨false, [1, 2, 3, 4, 5], -1⟩, rfl, by decide⟩⟩

/-- C2 amended: for every parsed input, `DECIMAL.validate` raises the
precision error exactly when the total digit count of the coefficient
exceeds `precision` (the integer-digit rule of the claim is not what the
code implements). -/
theorem claim_C2_amended :
    ∀ (p s : ℕ) (cs : List Char) (dt : DecTup), parseDec cs = some dt →
      (DECIMAL.validate p s (.dStr cs) = .error .precisionExceeded ↔
        p < dt.totalDigits) := by
  intro p s cs dt h
  have hv : DECIMAL.validate p s (.dStr cs) = DECIMAL.checkDigits p s dt := by
    simp [DECIMAL.validate, decOfDecVal, h]
  rw [hv]
  unfold DECIMAL.checkDigits
  by_cases h1 : dt.totalDigits > p
  · rw [if_pos h1]
    simp
    omega
  · rw [if_neg h1]
    split
    · simp
      omega
    · simp
      omega

/-- C2 witness: the amended theorem at DECIMAL(5,2) and `"1000.00"`,
whose six digits exceed the precision (the spec's own boundary example). -/
theorem claim_C2_witness :
    DECIMAL.validate 5 2 (.dStr "1000.00".toList) = .error .precisionExceeded :=
  (claim_C2_amended 5 2 "1000.00".toList ⟨false, [1, 0, 0, 0, 0, 0], -2⟩ rfl).mpr (by decide)

/-- C3 counterexample: `DECIMAL(5,2)` has no strict/lenient mode and no
rounding: validating `"1.234"` (three fractional digits) raises the scale
error rather than rounding half-up and continuing. -/
theorem claim_C3_counterexample :
    DECIMAL.validate 5 2 (.dStr "1.234".toList) = .error .scaleExceeded := rfl

/-- C3 amended: for every parsed input within precision,
`DECIMAL.validate` raises the scale error exactly when the fractional
digit count exceeds `scale` — unconditionally, with no strict flag and no
half-up rounding path. -/
theorem claim_C3_amended :
    ∀ (p s : ℕ) (cs : List Char) (dt : DecTup), parseDec cs = some dt →
      dt.totalDigits ≤ p →
      (DECIMAL.validate p s (.dStr cs) = .error .scaleExceeded ↔
        (s : ℤ) < dt.decimalPlaces) := by
  intro p s cs dt h hp
  have hv : DECIMAL.validate p s (.dStr cs) = DECIMAL.checkDigits p s dt := by
    simp [DECIMAL.validate, decOfDecVal, h]
  rw [hv]
  unfold DECIMAL.checkDigits
  rw [if_neg (by omega)]
  by_cases h2 : dt.decimalPlaces > (s : ℤ)
  · rw [if_pos h2]
    simp
    omega
  · rw [if_neg h2]
    simp
    omega

/-- C3 witness: the amended theorem at DECIMAL(5,2) and `"9.999"`
(four digits within precision, three fractional digits beyond scale). -/
theorem claim_C3_witness :
    DECIMAL.validate 5 2 (.dStr "9.999".toList) = .error .scaleExceeded :=
  (claim_C3_amended 5 2 "9.999".toList ⟨false, [9, 9, 9, 9], -3⟩ rfl (by decide)).mpr (by decide)

/-- C6: for DECIMAL(10,2), serializing any representable value with at
most two fractional digits and deserializing the stored string
reproduces the value exactly. -/
theorem claim_C6_decimal_roundtrip :
    ∀ d : DecTup, d.Canonical → d.digits.length ≤ 10 → -2 ≤ d.exp →
      DECIMAL.serialize 10 2 (.dDec d) = .ok (some (toSci d)) ∧
      DECIMAL.deserialize 10 2 (.dStr (toSci d)) = .ok (some d) := by
  intro d hcan hp hs
  have hparse := parseDec_toSci d hcan
  have hchk : DECIMAL.checkDigits 10 2 d = .ok () := by
    unfold DECIMAL.checkDigits DecTup.totalDigits DecTup.decimalPlaces
    rw [if_neg (by omega), if_neg (by split <;> omega)]
  have hval : DECIMAL.validate 10 2 (.dDec d) = .ok () := by
    simp [DECIMAL.validate, decOfDecVal, hparse, hchk]
  constructor
  · simp [DECIMAL.serialize, DECIMAL.validate, decOfDecVal, hparse, hchk,
      Bind.bind, Except.bind]
  · simp [DECIMAL.deserialize, decOfDecVal, hparse, hval, Bind.bind, Except.bind]

/-- C6 witness: the round trip at the concrete value 1.23. -/
theorem claim_C6_witness :
    DECIMAL.serialize 10 2 (.dDec ⟨false, [1, 2, 3], -2⟩) =
      .ok (some (toSci ⟨false, [1, 2, 3], -2⟩)) ∧
    DECIMAL.deserialize 10 2 (.dStr (toSci ⟨false, [1, 2, 3], -2⟩)) =
      .ok (some ⟨false, [1, 2, 3], -2⟩) :=
  claim_C6_decimal_roundtrip ⟨false, [1, 2, 3], -2⟩ (by decide) (by decide) (by decide)

/-- C7: CHAR(n) serializes a valid string by padding it with trailing
spaces to exactly length n; deserialize right-strips trailing whitespace;
the round trip returns the original string exactly when it has no
trailing whitespace. -/
theorem claim_C7_char_roundtrip :
    ∀ (n : ℕ) (s : List Char), s.length ≤ n →
      CHAR.serialize n (.vStr s) = .ok (some (ljustSp s n)) ∧
      (ljustSp s n).length = n ∧
      CHAR.deserialize n (.vStr (ljustSp s n)) = .ok (some (rstripWs s)) ∧
      (CHAR.deserialize n (.vStr (ljustSp s n)) = .ok (some s) ↔
        ∀ c ∈ s.getLast?, isPySpace c = false) := by
  intro n s hlen
  have hval : CHAR.validate n (.vStr s) = .ok () := by
    simp only [CHAR.validate, stringValidateCore]
    rw [if_neg (by omega)]
  have hser : CHAR.serialize n (.vStr s) = .ok (some (ljustSp s n)) := by
    simp [CHAR.serialize, hval, Bind.bind, Except.bind]
  have hljust : (ljustSp s n).length = n := by
    simp only [ljustSp, List.length_append, List.length_replicate]
    omega
  have hrs : rstripWs (ljustSp s n) = rstripWs s := rstripWs_append_spaces s _
  have hvr : CHAR.validate n (.vStr (rstripWs s)) = .ok () := by
    simp only [CHAR.validate, stringValidateCore]
    rw [if_neg (by have := rstripWs_length_le s; omega)]
  have hdes : CHAR.deserialize n (.vStr (ljustSp s n)) = .ok (some (rstripWs s)) := by
    simp [CHAR.deserialize, strOfVal, hrs, hvr, Bind.bind, Except.bind]
  refine ⟨hser, hljust, hdes, ?_⟩
  rw [hdes]
  simp only [Except.ok.injEq, Option.some.injEq]
  exact rstripWs_eq_self_iff s

/-- C7 witness: the theorem at CHAR(5) and the string "AB". -/
theorem claim_C7_witness :
    CHAR.serialize 5 (.vStr "AB".toList) = .ok (some (ljustSp "AB".toList 5)) ∧
    (ljustSp "AB".toList 5).length = 5 ∧
    CHAR.deserialize 5 (.vStr (ljustSp "AB".toList 5)) =
      .ok (some (rstripWs "AB".toList)) ∧
    (CHAR.deserialize 5 (.vStr (ljustSp "AB".toList 5)) = .ok (some "AB".toList) ↔
      ∀ c ∈ "AB".toList.getLast?, isPySpace c = false) :=
  claim_C7_char_roundtrip 5 "AB".toList (by decide)

/-- C8 counterexample: `DECIMAL(5,2).serialize` of the accepted value
`"1E+3"` returns the string `"1E+3"`, which uses exponent notation. -/
theorem claim_C8_counterexample :
    DECIMAL.serialize 5 2 (.dStr "1E+3".toList) = .ok (some "1E+3".toList) ∧
      'E' ∈ "1E+3".toList := ⟨rfl, by decide⟩

/-- Helper for C8: dissecting a successful DECIMAL serialize. -/
theorem serialize_chain {p s : ℕ} (v : DecVal) (out : List Char)
    (h : (do
        DECIMAL.validate p s v
        match decOfDecVal v with
        | some d => Except.ok (some (toSci d))
        | none => Except.error VErr.convError) = Except.ok (some out)) :
    ∃ dt, decOfDecVal v = some dt ∧ out = toSci dt := by
  cases hval : DECIMAL.validate p s v with
  | error e => rw [hval] at h; simp [Bind.bind, Except.bind] at h
  | ok u =>
    rw [hval] at h
    simp only [Bind.bind, Except.bind] at h
    cases hd : decOfDecVal v with
    | none => rw [hd] at h; simp at h
    | some dt =>
      rw [hd] at h
      simp only [Except.ok.injEq, Option.some.injEq] at h
      exact ⟨dt, rfl, h.symm⟩

/-- Helper for C8: every parsed DECIMAL input has a nonempty coefficient. -/
theorem decOfDecVal_digits_ne_nil {v : DecVal} {dt : DecTup}
    (h : decOfDecVal v = some dt) : dt.digits ≠ [] := by
  cases v with
  | dNone => simp [decOfDecVal] at h
  | dOther tg => simp [decOfDecVal] at h
  | dInt n =>
    simp only [decOfDecVal, Option.some.injEq] at h
    subst h
    exact natDigitsBE_ne_nil _
  | dStr cs => exact parseDec_digits_ne_nil h
  | dDec dd => exact parseDec_digits_ne_nil h

/-- C8 amended: a successful `DECIMAL.serialize` returns exactly
`str(Decimal(value))`, and that string is free of exponent notation
exactly when the value's exponent is ≤ 0 and its adjusted exponent is
above -6; otherwise (positive exponent, or very small magnitude) the
scientific form with `E` appears. -/
theorem claim_C8_amended :
    ∀ (p s : ℕ) (v : DecVal) (out : List Char),
      DECIMAL.serialize p s v = .ok (some out) →
      ∃ dt : DecTup, decOfDecVal v = some dt ∧ out = toSci dt ∧
        ('E' ∈ out ↔ ¬(dt.exp ≤ 0 ∧ dt.exp + (dt.digits.length : ℤ) > -6)) := by
  intro p s v out h
  cases v with
  | dNone => simp [DECIMAL.serialize] at h
  | dOther tg => simp [DECIMAL.serialize, DECIMAL.validate, Bind.bind, Except.bind] at h
  | dInt n =>
    simp only [DECIMAL.serialize] at h
    obtain ⟨dt, hd, hout⟩ := serialize_chain _ _ h
    exact ⟨dt, hd, hout, hout ▸ mem_E_toSci dt (decOfDecVal_digits_ne_nil hd)⟩
  | dStr cs =>
    simp only [DECIMAL.serialize] at h
    obtain ⟨dt, hd, hout⟩ := serialize_chain _ _ h
    exact ⟨dt, hd, hout, hout ▸ mem_E_toSci dt (decOfDecVal_digits_ne_nil hd)⟩
  | dDec dd =>
    simp only [DECIMAL.serialize] at h
    obtain ⟨dt, hd, hout⟩ := serialize_chain _ _ h
    exact ⟨dt, hd, hout, hout ▸ mem_E_toSci dt (decOfDecVal_digits_ne_nil hd)⟩

/-- C8 witness: the amended theorem at the concrete input `"1E+3"`. -/
theorem claim_C8_witness :
    ∃ dt : DecTup, decOfDecVal (.dStr "1E+3".toList) = some dt ∧
      "1E+3".toList = toSci dt ∧
      ('E' ∈ "1E+3".toList ↔ ¬(dt.exp ≤ 0 ∧ dt.exp + (dt.digits.length : ℤ) > -6)) :=
  claim_C8_amended 5 2 (.dStr "1E+3".toList) "1E+3".toList (by rfl)
